import Mathlib

/-!
# Verification of the tplink-go interactive session engine and table parsers

This file gives a shallow embedding, in Lean 4, of the relevant parts of the
`tplink-go` repository:

* the ANSI/VT escape stripping (`ansiEscape.ReplaceAll` with pattern
  `\x1b\[[0-9;]*[a-zA-Z]`) used by the session engine;
* the prompt matcher (`promptRegex`, pattern
  `(?m)[\r\n]*(SG2210XMP-M2(-N\d+)?(\([^)]*\))?[>#])\s*$`);
* the read-cycle loops (`Client.waitForPrompt` of the client package and the
  `waitForPrompt` of the one-off CLI program, which additionally answers the
  in-band `Password:` prompt);
* `Client.RunCommand`;
* the table parsers (`ParsePoETable`, `ParseInterfaceCounters`,
  `ParseInterfaceStatus`, `ParseMACTable`, `ParseInterfaceConfig`).

Byte strings are modelled as `List Char` (all the relevant data is ASCII and
the Go code manipulates plain byte strings).  Go `float64` results of
`strconv.ParseFloat` are modelled as exact rationals of the decimal literal;
`int`/`uint64` results carry the Go bit-width range checks.
-/

deriving instance DecidableEq for Except

namespace TPLink

/-- The ESC byte `\x1b`. -/
def esc : Char := '\x1b'

/-- Characters matched by `[0-9;]` (the parameter part of the ANSI pattern). -/
def isParamChar (c : Char) : Bool := c.isDigit || c == ';'

/-- Characters matched by RE2's `\s`, namely `[\t\n\f\r ]`. -/
def reWs (c : Char) : Bool :=
  c == ' ' || c == '\t' || c == '\n' || c == '\x0C' || c == '\r'

/-- Characters for which Go's `unicode.IsSpace` is true (Latin-1 range). -/
def goIsSpace (c : Char) : Bool :=
  c == ' ' || c == '\t' || c == '\n' || c == '\x0B' || c == '\x0C' || c == '\r' ||
  c == '\x85' || c == '\xA0'

/-- Scanner state for the single left-to-right pass of
`ansiEscape.ReplaceAll(_, "")` with pattern `\x1b\[[0-9;]*[a-zA-Z]`:
either scanning plain text, or having just consumed an ESC, or inside the
`[0-9;]*` parameter run (whose consumed characters are kept for replay,
since a failed match emits the scanned characters unchanged). -/
inductive StripMode where
  | plain : StripMode
  | sawEsc : StripMode
  | inParams (ps : List Char) : StripMode
deriving DecidableEq

/-- One left-to-right pass of `ansiEscape.ReplaceAll(b, []byte(""))`: every
(non-overlapping, leftmost) occurrence of `ESC [ [0-9;]* letter` is removed,
everything else is copied.  A match can only start at an ESC byte and the
parameter class contains neither ESC nor letters, so on a failed partial
match the scanned characters other than a final ESC can be emitted outright
and scanning resumes at the character that caused the failure. -/
def stripGo : StripMode → List Char → List Char
  | .plain, [] => []
  | .sawEsc, [] => [esc]
  | .inParams ps, [] => esc :: '[' :: ps
  | .plain, c :: cs =>
      if c = esc then stripGo .sawEsc cs else c :: stripGo .plain cs
  | .sawEsc, c :: cs =>
      if c = '[' then stripGo (.inParams []) cs
      else if c = esc then esc :: stripGo .sawEsc cs
      else esc :: c :: stripGo .plain cs
  | .inParams ps, c :: cs =>
      if isParamChar c then stripGo (.inParams (ps ++ [c])) cs
      else if c.isAlpha then stripGo .plain cs
      else if c = esc then (esc :: '[' :: ps) ++ stripGo .sawEsc cs
      else (esc :: '[' :: ps) ++ (c :: stripGo .plain cs)

/-- `ansiEscape.ReplaceAll(b, []byte(""))` / `ansiEscape.ReplaceAllString`. -/
def stripAnsi (l : List Char) : List Char := stripGo .plain l

/-- `strings.ReplaceAll(out, "\r", "")`: delete every carriage return. -/
def removeCR (l : List Char) : List Char := l.filter (fun c => c != '\r')

/-- The normalization `RunCommand` applies to the accumulated buffer:
escape stripping first, then carriage-return removal. -/
def normalize (l : List Char) : List Char := removeCR (stripAnsi l)

/-- Decides whether a buffer contains an occurrence of the ANSI pattern
`ESC [ [0-9;]* letter` starting at its head. -/
def escSeqAt (t : List Char) : Bool :=
  match t with
  | c :: d :: rest =>
      if c = esc ∧ d = '[' then
        match rest.dropWhile isParamChar with
        | e :: _ => e.isAlpha
        | [] => false
      else false
  | _ => false

/-- Whether a buffer contains a raw ANSI escape sequence anywhere
(the general shape `ESC [ parameters final-letter`). -/
def hasEscSeq (l : List Char) : Bool := l.tails.any escSeqAt

/-- The literal device identifier at the head of `promptRegex`. -/
def promptBase : List Char := "SG2210XMP-M2".toList

/-- Match a literal list at the head of `t`, returning the remainder. -/
def dropLit : List Char → List Char → Option (List Char)
  | [], t => some t
  | _ :: _, [] => none
  | c :: cs, d :: ds => if c = d then dropLit cs ds else none

/-- Consume the optional `(-N\d+)?` group at the head of `r`.  The `\d+` run
is taken greedily; since the digit class is disjoint from every character
that may legally follow the group (`(`, `>`, `#`), greediness is faithful to
the regex engine, and a partial `-N` without digits backtracks to the empty
alternative (returning `r` unchanged). -/
def afterDash (r : List Char) : List Char :=
  match r with
  | a :: b :: rest =>
      if a = '-' ∧ b = 'N' then
        if rest.takeWhile Char.isDigit = [] then r
        else rest.dropWhile Char.isDigit
      else r
  | _ => r

/-- Consume the optional `(\([^)]*\))?` group at the head of `r`.  The
`[^)]*` run extends exactly to the first `)`; if there is none, or the head
is not `(`, the group matches empty (returning `r` unchanged — a subsequent
`[>#]` test on `(` then fails, as in the regex engine). -/
def afterParen (r : List Char) : List Char :=
  match r with
  | a :: rest =>
      if a = '(' then
        match rest.dropWhile (fun c => c != ')') with
        | b :: rest' => if b = ')' then rest' else r
        | [] => r
      else r
  | [] => r

/-- After the literal device identifier: consume the two optional groups and
require the final `[>#]` character, returning the remainder. -/
def matchTail (r0 : List Char) : Option (List Char) :=
  match afterParen (afterDash r0) with
  | c :: rest => if c = '>' || c = '#' then some rest else none
  | [] => none

/-- Match the core group `SG2210XMP-M2(-N\d+)?(\([^)]*\))?[>#]` of
`promptRegex` at the head of `t`, returning the remainder after the match. -/
def matchCore (t : List Char) : Option (List Char) :=
  match dropLit promptBase t with
  | none => none
  | some r0 => matchTail r0

/-- The trailing `\s*$` of `promptRegex` under the `(?m)` flag: starting at
the current position, some run of `\s` characters reaches a position that is
either the end of the text or immediately before a `\n`. -/
def endOK : List Char → Bool
  | [] => true
  | c :: cs => if c = '\n' then true else if reWs c then endOK cs else false

/-- Whether `promptRegex` matches starting at the head of `t`
(the leading `[\r\n]*` may always match empty, so it does not affect
whether a match exists). -/
def promptHit (t : List Char) : Bool :=
  match matchCore t with
  | some r => endOK r
  | none => false

/-- `promptRegex.Match(s)`: the pattern matches somewhere in `s`. -/
def promptMatch (s : List Char) : Bool := s.tails.any promptHit

/-- Whether `promptRegex` matches starting at the head of `t` with the match
extending to the very end of `t` (only `\s` after the core group): the
reading of the prompt-matcher claim without the `(?m)` flag. -/
def endAnchoredHit (t : List Char) : Bool :=
  match matchCore t with
  | some r => r.all reWs
  | none => false

/-- Whether the core prompt group occurs in `s` followed only by whitespace
up to the very end of `s`. -/
def endAnchored (s : List Char) : Bool := s.tails.any endAnchoredHit

/-- Declarative reading of the optional `(-N\d+)?` group. -/
def NPart (n : List Char) : Prop :=
  n = [] ∨ ∃ ds, ds ≠ [] ∧ (∀ d ∈ ds, d.isDigit = true) ∧ n = '-' :: 'N' :: ds

/-- Declarative reading of the optional `(\([^)]*\))?` group. -/
def QPart (q : List Char) : Prop :=
  q = [] ∨ ∃ inner, (∀ c ∈ inner, c ≠ ')') ∧ q = '(' :: (inner ++ [')'])

/-- Declarative reading of the full core group of `promptRegex`: the strings
of the language `SG2210XMP-M2(-N\d+)?(\([^)]*\))?[>#]`. -/
def IsCore (p : List Char) : Prop :=
  ∃ n q c, NPart n ∧ QPart q ∧ (c = '>' ∨ c = '#') ∧
    p = promptBase ++ n ++ q ++ [c]

/-! ## Session engine: `Client.waitForPrompt` and `Client.RunCommand`

The read loop is a `select` over a context-done channel, a one-shot timer
channel and a default branch performing a blocking `Read`.  The loop body
executed at each iteration is determined by which branch fires and by what
the `Read` returns, so a read cycle is modelled as a function of the trace of
these events.  `Read` is modelled by the chunk of bytes returned (`n > 0`
iff the chunk is nonempty) together with whether it reported a fatal error
(`err != nil && err != io.EOF`; a benign `io.EOF` is `fatal = false`). -/

/-- One scheduler/transport event of `Client.waitForPrompt`'s loop. -/
inductive Ev where
  | ctxDone : Ev
  | timeoutFire : Ev
  | read (chunk : List Char) (fatal : Bool) : Ev
deriving DecidableEq

/-- Outcome of one read cycle of `Client.waitForPrompt`. -/
inductive WRes where
  | ok : WRes
  | ctxErr : WRes
  | timeoutErr : WRes
  | readErr : WRes
  | pending : WRes
deriving DecidableEq

/-- `Client.waitForPrompt`: arguments are the client's persistent `outBuf`,
the cycle-local `tmp` buffer and the event trace; the result is the cycle
outcome together with the final `outBuf`.  Each nonempty chunk is appended
to both buffers, and the prompt test runs on the escape-stripped cumulative
`tmp`.  A fatal read error returns before the chunk is processed, as in the
source.  `pending` stands for a trace that ends with the loop still
blocked (the Go loop would keep waiting). -/
def waitForPromptC : List Char → List Char → List Ev → WRes × List Char
  | buf, _, [] => (.pending, buf)
  | buf, _, .ctxDone :: _ => (.ctxErr, buf)
  | buf, _, .timeoutFire :: _ => (.timeoutErr, buf)
  | buf, tmp, .read chunk fatal :: evs =>
      if fatal then (.readErr, buf)
      else if chunk = [] then waitForPromptC buf tmp evs
      else
        if promptMatch (stripAnsi (tmp ++ chunk)) then (.ok, buf ++ chunk)
        else waitForPromptC (buf ++ chunk) (tmp ++ chunk) evs

/-- The bytes a read cycle starting with local buffer `tmp` appends to the
client's `outBuf` along the event trace `evs`. -/
def consumed : List Char → List Ev → List Char
  | _, [] => []
  | _, .ctxDone :: _ => []
  | _, .timeoutFire :: _ => []
  | tmp, .read chunk fatal :: evs =>
      if fatal then []
      else if chunk = [] then consumed tmp evs
      else
        if promptMatch (stripAnsi (tmp ++ chunk)) then chunk
        else chunk ++ consumed (tmp ++ chunk) evs

/-- The state of a `Client` relevant to `RunCommand`: its accumulation
buffer `outBuf` (persisting across calls). -/
structure ClientSt where
  outBuf : List Char
deriving DecidableEq

/-- The error cases `RunCommand` can surface from a read cycle. -/
inductive RunErr where
  | ctxCanceled : RunErr
  | timeout : RunErr
  | readFailed : RunErr
  | stillPending : RunErr
deriving DecidableEq

/-- `Client.RunCommand`: writes `cmd + "\r\n"` to stdin — the source calls
`fmt.Fprint(c.stdin, cmd+"\r\n")` and discards its result, which is why the
`wfail` flag (whether that write failed) is not consulted anywhere — then
runs one read cycle with a fresh `tmp`.  On success it returns the
escape-stripped, CR-stripped `outBuf` and resets `outBuf`; on failure it
returns the error and leaves `outBuf` as the cycle left it. -/
def runCommand (st : ClientSt) (cmd : List Char) (wfail : Bool) (evs : List Ev) :
    Except RunErr (List Char) × ClientSt :=
  match waitForPromptC st.outBuf [] evs with
  | (.ok, buf) => (.ok (normalize buf), ⟨[]⟩)
  | (.ctxErr, buf) => (.error .ctxCanceled, ⟨buf⟩)
  | (.timeoutErr, buf) => (.error .timeout, ⟨buf⟩)
  | (.readErr, buf) => (.error .readFailed, ⟨buf⟩)
  | (.pending, buf) => (.error .stillPending, ⟨buf⟩)

/-! ## The one-off CLI program's `waitForPrompt` (secondary `Password:` prompt)

This variant has no context channel (only the timer and the default read
branch).  On timeout or fatal read error it just logs and returns.  After
each chunk it first tests whether the escape-stripped cumulative buffer
contains the literal `Password:`; if so it writes the password to stdin,
clears the cumulative buffer and continues; otherwise it tests the prompt. -/

/-- One scheduler/transport event of the CLI `waitForPrompt` loop. -/
inductive Ev2 where
  | timeoutFire : Ev2
  | read (chunk : List Char) (fatal : Bool) : Ev2
deriving DecidableEq

/-- Outcome of the CLI `waitForPrompt` (the Go function returns `void`;
these tags record which exit was taken, `pending` an exhausted trace). -/
inductive W2Res where
  | prompt : W2Res
  | timeout : W2Res
  | readErr : W2Res
  | pending : W2Res
deriving DecidableEq

/-- `bytes.Contains(l, pat)`. -/
def containsSub (l pat : List Char) : Bool := l.tails.any (fun t => pat.isPrefixOf t)

/-- The literal secondary prompt pattern. -/
def pwPrompt : List Char := "Password:".toList

/-- The CLI `waitForPrompt`: arguments are the cumulative `tmp` buffer, the
`fullOutput` buffer and the event trace.  Returns the exit taken, the final
`fullOutput`, and how many times the password was written to stdin
(`fmt.Fprintln(stdin, password)`) during this invocation. -/
def waitForPrompt2 : List Char → List Char → List Ev2 → W2Res × List Char × Nat
  | _, fo, [] => (.pending, fo, 0)
  | _, fo, .timeoutFire :: _ => (.timeout, fo, 0)
  | tmp, fo, .read chunk fatal :: evs =>
      if fatal then (.readErr, fo, 0)
      else if chunk = [] then waitForPrompt2 tmp fo evs
      else
        let fo' := fo ++ chunk
        let cleaned := stripAnsi (tmp ++ chunk)
        if containsSub cleaned pwPrompt then
          let o := waitForPrompt2 [] fo' evs
          (o.1, o.2.1, o.2.2 + 1)
        else if promptMatch cleaned then (.prompt, fo', 0)
        else waitForPrompt2 (tmp ++ chunk) fo' evs

/-- Number of events of a trace in which the read returned data that the
CLI `waitForPrompt` loop body processes (a nonempty, non-fatal chunk). -/
def readCount : List Ev2 → Nat
  | [] => 0
  | .timeoutFire :: evs => readCount evs
  | .read chunk fatal :: evs =>
      (if fatal = false ∧ chunk ≠ [] then 1 else 0) + readCount evs

/-! ## Table parsers

String helpers translated from the Go standard library calls the parsers
make (`strings.Split(_, "\n")`, `strings.TrimSpace`, `strings.Fields`,
`strings.HasPrefix`, `strings.Join`), followed by the numeric conversions
(`strconv.ParseFloat`, `strconv.Atoi`, `strconv.ParseUint`).  `ParseFloat`
is modelled on the plain decimal/exponent literal forms (the special forms
`Inf`/`NaN`, hexadecimal floats and digit-separating underscores accepted by
Go do not occur in switch tables); its value is the exact rational denoted
by the literal. -/

/-- `strings.Split(s, "\n")` (always returns at least one piece). -/
def splitNLGo (cur : List Char) : List Char → List (List Char)
  | [] => [cur.reverse]
  | c :: cs => if c = '\n' then cur.reverse :: splitNLGo [] cs else splitNLGo (c :: cur) cs

/-- The lines of `s`, as split by `strings.Split(s, "\n")`. -/
def splitLines (s : List Char) : List (List Char) := splitNLGo [] s

/-- `strings.TrimSpace`. -/
def trimSpace (l : List Char) : List Char :=
  ((l.dropWhile goIsSpace).reverse.dropWhile goIsSpace).reverse

/-- `strings.Fields` (split around runs of `unicode.IsSpace` characters). -/
def fieldsGo (cur : List Char) : List Char → List (List Char)
  | [] => if cur = [] then [] else [cur.reverse]
  | c :: cs =>
      if goIsSpace c then
        if cur = [] then fieldsGo [] cs else cur.reverse :: fieldsGo [] cs
      else fieldsGo (c :: cur) cs

/-- The whitespace-separated fields of `l`. -/
def fields (l : List Char) : List (List Char) := fieldsGo [] l

/-- `strings.Join(ls, " ")`. -/
def joinSpace (ls : List (List Char)) : List Char := List.intercalate [' '] ls

/-- The value of a digit string (its digits read in base 10). -/
def digitsToNat (l : List Char) : Nat :=
  l.foldl (fun n c => n * 10 + (c.toNat - '0'.toNat)) 0

/-- `strconv.ParseUint(s, 10, 64)`: digits only (no sign), nonempty, value
below `2^64`; `none` models a non-nil error. -/
def parseUint64? (s : List Char) : Option Nat :=
  if s = [] then none
  else if s.all Char.isDigit then
    if digitsToNat s < 2 ^ 64 then some (digitsToNat s) else none
  else none

/-- `strconv.Atoi` (= `ParseInt(s, 10, 0)` with 64-bit `int`): optional
sign, nonempty digits, 64-bit signed range; `none` models a non-nil error. -/
def atoi? (s : List Char) : Option Int :=
  match s with
  | '+' :: t =>
      if t ≠ [] ∧ t.all Char.isDigit ∧ digitsToNat t ≤ 2 ^ 63 - 1 then
        some (digitsToNat t) else none
  | '-' :: t =>
      if t ≠ [] ∧ t.all Char.isDigit ∧ digitsToNat t ≤ 2 ^ 63 then
        some (-(digitsToNat t : Int)) else none
  | _ =>
      if s ≠ [] ∧ s.all Char.isDigit ∧ digitsToNat s ≤ 2 ^ 63 - 1 then
        some (digitsToNat s) else none

/-- The exponent part `([eE][+-]?\d+)?` at the end of a float literal.
`mant` is the signed integer mantissa and `scale` the number of fractional
digits, so the value before the exponent is `mant / 10 ^ scale`; `none`
models a malformed literal.  (Arithmetic is kept on `Int`/`Nat` with a
single final `mkRat`, which is exact.) -/
def parseExpPart (mant : Int) (scale : Nat) (r : List Char) : Option ℚ :=
  match r with
  | [] => some (mkRat mant (10 ^ scale))
  | e :: r2 =>
      if e = 'e' ∨ e = 'E' then
        let negExp := match r2 with | '-' :: _ => true | _ => false
        let r3 := match r2 with | '+' :: t => t | '-' :: t => t | _ => r2
        if r3 ≠ [] ∧ r3.all Char.isDigit then
          if negExp then some (mkRat mant (10 ^ (scale + digitsToNat r3)))
          else some (mkRat (mant * ((10 : Int) ^ digitsToNat r3)) (10 ^ scale))
        else none
      else none

/-- `strconv.ParseFloat(s, 64)` on decimal literals
(`[+-]? digits [. digits]? exponent?`, at least one digit in the mantissa),
with the exact rational value of the literal. -/
def parseFloat? (s : List Char) : Option ℚ :=
  let neg : Bool := match s with | '-' :: _ => true | _ => false
  let s1 := match s with | '+' :: t => t | '-' :: t => t | _ => s
  let ip := s1.takeWhile Char.isDigit
  let r1 := s1.dropWhile Char.isDigit
  match r1 with
  | '.' :: r2 =>
      let fp := r2.takeWhile Char.isDigit
      let r3 := r2.dropWhile Char.isDigit
      if ip = [] ∧ fp = [] then none
      else
        let mantNat := digitsToNat (ip ++ fp)
        parseExpPart (if neg then -(mantNat : Int) else (mantNat : Int)) fp.length r3
  | _ =>
      if ip = [] then none
      else
        let mantNat := digitsToNat ip
        parseExpPart (if neg then -(mantNat : Int) else (mantNat : Int)) 0 r1

/-- `PoEPort` (power-over-ethernet details for a switch port). -/
structure PoEPort where
  PowerWatts : ℚ
  CurrentMA : ℤ
  VoltageV : ℚ
  PDClass : List Char
  Status : List Char
deriving DecidableEq

/-- Go map assignment `m[k] = v` on an association-list model. -/
def upsert {β : Type} : List (List Char × β) → List Char → β → List (List Char × β)
  | [], k, v => [(k, v)]
  | (k', v') :: rest, k, v =>
      if k' = k then (k, v) :: rest else (k', v') :: upsert rest k v

/-- The numeric part of the `ParsePoETable` loop body for a structurally
eligible row: parse power/current/voltage (fields 1–3); on success store the
record under the interface name (field 0) with class = fields 4..n-2 joined
and status = the last field; any conversion error fails the whole call with
the offending line. -/
def poeNum (m : List (List Char × PoEPort)) (line : List Char)
    (fs : List (List Char)) : Except (List Char) (List (List Char × PoEPort)) :=
  match parseFloat? (fs.getD 1 []), atoi? (fs.getD 2 []), parseFloat? (fs.getD 3 []) with
  | some pw, some cur, some vol =>
      .ok (upsert m (fs.getD 0 [])
        ⟨pw, cur, vol, joinSpace ((fs.drop 4).dropLast), fs.getLast?.getD []⟩)
  | _, _, _ => .error line

/-- The loop body of `ParsePoETable` for one raw line: trims it, and for a
`Tw`-prefixed line with at least six fields runs the numeric part.
Other lines leave the map unchanged. -/
def poeStep (m : List (List Char × PoEPort)) (raw : List Char) :
    Except (List Char) (List (List Char × PoEPort)) :=
  if ("Tw".toList).isPrefixOf (trimSpace raw) then
    if (fields (trimSpace raw)).length < 6 then .ok m
    else poeNum m (trimSpace raw) (fields (trimSpace raw))
  else .ok m

/-- Fold of `poeStep` over the lines (the `for` loop of `ParsePoETable`). -/
def parsePoELines : List (List Char) → List (List Char × PoEPort) →
    Except (List Char) (List (List Char × PoEPort))
  | [], m => .ok m
  | l :: ls, m =>
      match poeStep m l with
      | .ok m' => parsePoELines ls m'
      | .error e => .error e

/-- `ParsePoETable`: split into lines and run the loop on an empty map.
The error payload is the offending line (`"parse error on line: %q"`). -/
def parsePoETable (s : List Char) : Except (List Char) (List (List Char × PoEPort)) :=
  parsePoELines (splitLines s) []

/-- Characters of the regex class `[\w\- /]` of `keyValRegex`. -/
def isKeyChar (c : Char) : Bool :=
  c.isAlphanum || c == '_' || c == '-' || c == ' ' || c == '/'

/-- `keyValRegex.FindStringSubmatch` for `^([\w\- /]+):\s+([\d,]+)$`:
returns the two capture groups on a full-line match.  The key group must end
at the first `:` (the class excludes `:`); `\s+` and `[\d,]+` partition the
remainder deterministically because their classes are disjoint and the final
`[\d,]+` is anchored at end of line. -/
def keyValMatch (l : List Char) : Option (List Char × List Char) :=
  let key := l.takeWhile isKeyChar
  if key = [] then none
  else
    match l.dropWhile isKeyChar with
    | ':' :: rest =>
        if rest.takeWhile reWs = [] then none
        else
          let rest2 := rest.dropWhile reWs
          let val := rest2.takeWhile (fun c => c.isDigit || c == ',')
          if val = [] then none
          else if rest2.dropWhile (fun c => c.isDigit || c == ',') = [] then
            some (key, val)
          else none
    | _ => none

/-- The per-port counter maps of `ParseInterfaceCounters`
(`InterfaceStats = map[string]map[string]uint64`). -/
abbrev CounterStats : Type := List (List Char × List (List Char × Nat))

/-- `stats[port][key] = val` (the port entry exists whenever the source
reaches this assignment; if absent, one is created, which is unreachable). -/
def upsertInner : CounterStats → List Char → List Char → Nat → CounterStats
  | [], port, key, v => [(port, [(key, v)])]
  | (p, im) :: rest, port, key, v =>
      if p = port then (p, upsert im key v) :: rest
      else (p, im) :: upsertInner rest port key v

/-- The loop body of `ParseInterfaceCounters` for one raw line, acting on
the pair (currentPort, stats).  A `Port:`-prefixed line selects (and resets)
the port; other lines are ignored until a port is set; a `key: value` line
must then have a parsable value or the whole call fails. -/
def countersStep (acc : List Char × CounterStats) (raw : List Char) :
    Except (List Char) (List Char × CounterStats) :=
  let line := trimSpace raw
  if ("Port:".toList).isPrefixOf line then
    let after := (line.dropWhile (fun c => c != ':')).tail
    let p := trimSpace after
    .ok (p, upsert acc.2 p [])
  else if acc.1 = [] then .ok acc
  else
    match keyValMatch line with
    | some (k, v) =>
        let key := trimSpace k
        let valStr := v.filter (fun c => c != ',')
        match parseUint64? valStr with
        | some n => .ok (acc.1, upsertInner acc.2 acc.1 key n)
        | none => .error line
    | none => .ok acc

/-- Fold of `countersStep` over the lines. -/
def parseCountersLines : List (List Char) → (List Char × CounterStats) →
    Except (List Char) CounterStats
  | [], acc => .ok acc.2
  | l :: ls, acc =>
      match countersStep acc l with
      | .ok acc' => parseCountersLines ls acc'
      | .error e => .error e

/-- `ParseInterfaceCounters`. -/
def parseInterfaceCounters (s : List Char) : Except (List Char) CounterStats :=
  parseCountersLines (splitLines s) ([], [])

/-- `InterfaceStatus` (one row of `show interface status`). -/
structure InterfaceStatus where
  Port : List Char
  Status : List Char
  Speed : List Char
  Duplex : List Char
  FlowCtrl : List Char
  ActiveMedium : List Char
  Description : List Char
deriving DecidableEq

/-- The per-line transform of `ParseInterfaceStatus`: header/separator/empty
lines and lines with fewer than six fields yield nothing. -/
def statusLine? (raw : List Char) : Option InterfaceStatus :=
  let line := trimSpace raw
  if ("Port".toList).isPrefixOf line || ("----".toList).isPrefixOf line || line = [] then
    none
  else
    let fs := fields line
    if fs.length ≥ 6 then
      some ⟨fs.getD 0 [], fs.getD 1 [], fs.getD 2 [], fs.getD 3 [], fs.getD 4 [],
        fs.getD 5 [], joinSpace (fs.drop 6)⟩
    else none

/-- `ParseInterfaceStatus` (its only return is `results, nil`). -/
def parseInterfaceStatus (s : List Char) : Except (List Char) (List InterfaceStatus) :=
  .ok ((splitLines s).filterMap statusLine?)

/-- `MACEntry` (one row of `show mac address-table`; the Go field `Type` is
rendered `Typ`). -/
structure MACEntry where
  MAC : List Char
  VLAN : ℤ
  Port : List Char
  Typ : List Char
  Aging : List Char
deriving DecidableEq

/-- The header/separator/`Total`/empty-line skip condition of
`ParseMACTable`. -/
def macHeaderSkip (line : List Char) : Bool :=
  ("MAC".toList).isPrefixOf line || ("---".toList).isPrefixOf line ||
    ("Total".toList).isPrefixOf line || line = []

/-- The VLAN conversion of a five-field MAC-table row: an entry on success,
nothing (a silent skip, `continue` in the source) on an `Atoi` error. -/
def macNum (fs : List (List Char)) : Option MACEntry :=
  match atoi? (fs.getD 1 []) with
  | some vlan => some ⟨fs.getD 0 [], vlan, fs.getD 2 [], fs.getD 3 [], fs.getD 4 []⟩
  | none => none

/-- The per-line transform of `ParseMACTable`: header/separator/`Total`/empty
lines yield nothing; a line with exactly five fields yields an entry only if
its VLAN field parses with `strconv.Atoi`, and is silently skipped
otherwise. -/
def macLine? (raw : List Char) : Option MACEntry :=
  if macHeaderSkip (trimSpace raw) then none
  else if (fields (trimSpace raw)).length = 5 then macNum (fields (trimSpace raw))
  else none

/-- `ParseMACTable` (its only return is `results, nil`). -/
def parseMACTable (s : List Char) : Except (List Char) (List MACEntry) :=
  .ok ((splitLines s).filterMap macLine?)

/-- `InterfaceConfig` (one row of `show interface configuration`). -/
structure InterfaceConfig where
  Port : List Char
  State : List Char
  Speed : List Char
  Duplex : List Char
  FlowCtrl : List Char
  Description : List Char
deriving DecidableEq

/-- The per-line transform of `ParseInterfaceConfig`. -/
def configLine? (raw : List Char) : Option InterfaceConfig :=
  let line := trimSpace raw
  if ("Port".toList).isPrefixOf line || ("----".toList).isPrefixOf line || line = [] then
    none
  else
    let fs := fields line
    if fs.length ≥ 5 then
      some ⟨fs.getD 0 [], fs.getD 1 [], fs.getD 2 [], fs.getD 3 [], fs.getD 4 [],
        joinSpace (fs.drop 5)⟩
    else none

/-- `ParseInterfaceConfig` (its only return is `results, nil`). -/
def parseInterfaceConfig (s : List Char) : Except (List Char) (List InterfaceConfig) :=
  .ok ((splitLines s).filterMap configLine?)

/-- A structurally eligible PoE row whose power, current or voltage field
fails its numeric conversion (the hard-error case of `ParsePoETable`). -/
def poeBadLine (raw : List Char) : Bool :=
  let line := trimSpace raw
  ("Tw".toList).isPrefixOf line &&
    decide (6 ≤ (fields line).length) &&
    ((parseFloat? ((fields line).getD 1 [])).isNone ||
     (atoi? ((fields line).getD 2 [])).isNone ||
     (parseFloat? ((fields line).getD 3 [])).isNone)

/-- A `Tw`-prefixed row with fewer than six fields (the skip case of
`ParsePoETable`). -/
def poeShortLine (raw : List Char) : Bool :=
  let line := trimSpace raw
  ("Tw".toList).isPrefixOf line && decide ((fields line).length < 6)

lemma dropLit_iff (xs : List Char) : ∀ t r, dropLit xs t = some r ↔ t = xs ++ r := by
  induction xs with
  | nil =>
      intro t r
      simp [dropLit, eq_comm]
  | cons c cs ih =>
      intro t r
      cases t with
      | nil => simp [dropLit]
      | cons d ds =>
          by_cases h : c = d
          · subst h
            simp [dropLit, ih ds r]
          · simp only [dropLit, if_neg h]
            constructor
            · intro hfalse; cases hfalse
            · intro he
              exact absurd (List.cons.injEq d ds c (cs ++ r) ▸ he).1 (fun hh => h hh.symm)

lemma takeWhile_head_neg {p : Char → Bool} {l : List Char}
    (h : ∀ x t, l = x :: t → p x = false) : l.takeWhile p = [] := by
  cases l with
  | nil => rfl
  | cons x t => simp [List.takeWhile_cons, h x t rfl]

lemma dropWhile_head_neg {p : Char → Bool} {l : List Char}
    (h : ∀ x t, l = x :: t → p x = false) : l.dropWhile p = l := by
  cases l with
  | nil => rfl
  | cons x t => simp [List.dropWhile_cons, h x t rfl]

lemma afterDash_split (r0 : List Char) : ∃ n, NPart n ∧ r0 = n ++ afterDash r0 := by
  match r0 with
  | [] => exact ⟨[], Or.inl rfl, rfl⟩
  | [a] => exact ⟨[], Or.inl rfl, rfl⟩
  | a :: b :: rest =>
      by_cases hab : a = '-' ∧ b = 'N'
      · by_cases hd : rest.takeWhile Char.isDigit = []
        · exact ⟨[], Or.inl rfl, by simp [afterDash, hab, hd]⟩
        · refine ⟨'-' :: 'N' :: rest.takeWhile Char.isDigit, Or.inr ⟨_, hd, ?_, ?_⟩, ?_⟩
          · intro d hdm
            exact List.mem_takeWhile_imp hdm
          · rfl
          · have hAD : afterDash (a :: b :: rest) = rest.dropWhile Char.isDigit := by
              show (if a = '-' ∧ b = 'N' then
                      if rest.takeWhile Char.isDigit = [] then a :: b :: rest
                      else rest.dropWhile Char.isDigit
                    else a :: b :: rest) = rest.dropWhile Char.isDigit
              rw [if_pos hab, if_neg hd]
            rw [hAD, hab.1, hab.2]
            simp [List.takeWhile_append_dropWhile]
      · have hAD : afterDash (a :: b :: rest) = a :: b :: rest := by
          show (if a = '-' ∧ b = 'N' then
                  if rest.takeWhile Char.isDigit = [] then a :: b :: rest
                  else rest.dropWhile Char.isDigit
                else a :: b :: rest) = a :: b :: rest
          rw [if_neg hab]
        exact ⟨[], Or.inl rfl, by rw [hAD]; rfl⟩

lemma afterParen_eq_cons {a : Char} {rest : List Char} {bc : Char} {rest' : List Char}
    (ha : a = '(') (hd : rest.dropWhile (fun c => c != ')') = bc :: rest')
    (hb : bc = ')') : afterParen (a :: rest) = rest' := by
  show (if a = '(' then
          match rest.dropWhile (fun c => c != ')') with
          | b :: r' => if b = ')' then r' else a :: rest
          | [] => a :: rest
        else a :: rest) = rest'
  rw [if_pos ha, hd]
  simp [hb]

lemma afterParen_split (r0 : List Char) : ∃ q, QPart q ∧ r0 = q ++ afterParen r0 := by
  match r0 with
  | [] => exact ⟨[], Or.inl rfl, rfl⟩
  | a :: rest =>
      by_cases ha : a = '('
      · cases hd : rest.dropWhile (fun c => c != ')') with
        | nil =>
            refine ⟨[], Or.inl rfl, ?_⟩
            show a :: rest = [] ++ (if a = '(' then
                match rest.dropWhile (fun c => c != ')') with
                | b :: r' => if b = ')' then r' else a :: rest
                | [] => a :: rest
              else a :: rest)
            rw [if_pos ha, hd]
            rfl
        | cons b rest' =>
            by_cases hb : b = ')'
            · refine ⟨'(' :: (rest.takeWhile (fun c => c != ')') ++ [')']),
                Or.inr ⟨rest.takeWhile (fun c => c != ')'), ?_, rfl⟩, ?_⟩
              · intro cc hcc
                have h2 := List.mem_takeWhile_imp (p := fun c => c != ')') hcc
                exact bne_iff_ne.mp h2
              · rw [afterParen_eq_cons ha hd hb]
                have hrest : rest = rest.takeWhile (fun c => c != ')') ++ ')' :: rest' := by
                  conv_lhs => rw [← List.takeWhile_append_dropWhile
                    (p := fun c => c != ')') (l := rest)]
                  rw [hd, hb]
                rw [ha]
                conv_lhs => rw [hrest]
                simp
            · refine ⟨[], Or.inl rfl, ?_⟩
              show a :: rest = [] ++ (if a = '(' then
                  match rest.dropWhile (fun c => c != ')') with
                  | b :: r' => if b = ')' then r' else a :: rest
                  | [] => a :: rest
                else a :: rest)
              rw [if_pos ha, hd]
              simp [hb]
      · refine ⟨[], Or.inl rfl, ?_⟩
        cases rest with
        | nil => simp [afterParen, ha]
        | cons y u => simp [afterParen, ha]

lemma afterDash_of {n : List Char} (rest : List Char) (hn : NPart n)
    (hr : ∃ x t, rest = x :: t ∧ x ≠ '-' ∧ x.isDigit = false) :
    afterDash (n ++ rest) = rest := by
  obtain ⟨x, t, rfl, hx1, hx2⟩ := hr
  rcases hn with rfl | ⟨ds, hne, hdig, rfl⟩
  · cases t with
    | nil => simp [afterDash]
    | cons y u => simp [afterDash, hx1]
  · have heq : ('-' :: 'N' :: ds) ++ x :: t = '-' :: 'N' :: (ds ++ x :: t) := by simp
    rw [heq]
    have htw : (ds ++ x :: t).takeWhile Char.isDigit = ds := by
      rw [List.takeWhile_append_of_pos (by intro a ha; exact hdig a ha)]
      rw [takeWhile_head_neg (by intro y u hyu; cases hyu; exact hx2)]
      simp
    have hdw : (ds ++ x :: t).dropWhile Char.isDigit = x :: t := by
      rw [List.dropWhile_append_of_pos (by intro a ha; exact hdig a ha)]
      exact dropWhile_head_neg (by intro y u hyu; cases hyu; exact hx2)
    have hne' : (ds ++ x :: t).takeWhile Char.isDigit ≠ [] := by
      rw [htw]; exact hne
    show (if ('-' : Char) = '-' ∧ ('N' : Char) = 'N' then
            if (ds ++ x :: t).takeWhile Char.isDigit = [] then '-' :: 'N' :: (ds ++ x :: t)
            else (ds ++ x :: t).dropWhile Char.isDigit
          else '-' :: 'N' :: (ds ++ x :: t)) = x :: t
    rw [if_pos ⟨rfl, rfl⟩, if_neg hne', hdw]

lemma afterParen_of {q : List Char} (rest : List Char) (hq : QPart q)
    (hr : ∃ x t, rest = x :: t ∧ x ≠ '(') :
    afterParen (q ++ rest) = rest := by
  obtain ⟨x, t, rfl, hx⟩ := hr
  rcases hq with rfl | ⟨inner, hin, rfl⟩
  · simp [afterParen, hx]
  · have hdw : (inner ++ ')' :: (x :: t)).dropWhile (fun c => c != ')') = ')' :: x :: t := by
      rw [List.dropWhile_append_of_pos
        (by intro a ha; exact bne_iff_ne.mpr (hin a ha))]
      exact dropWhile_head_neg (by intro y u hyu; cases hyu; simp)
    have heq : ('(' :: (inner ++ [')'])) ++ x :: t = '(' :: (inner ++ ')' :: (x :: t)) := by
      simp
    rw [heq, afterParen_eq_cons rfl hdw rfl]

lemma matchCore_eq_none {t : List Char} (h : dropLit promptBase t = none) :
    matchCore t = none := by
  unfold matchCore; rw [h]

lemma matchCore_eq_tail {t r0 : List Char} (h : dropLit promptBase t = some r0) :
    matchCore t = matchTail r0 := by
  unfold matchCore; rw [h]

lemma matchTail_eq_cons {r0 : List Char} {c : Char} {rest : List Char}
    (h : afterParen (afterDash r0) = c :: rest) :
    matchTail r0 = (if c = '>' || c = '#' then some rest else none) := by
  unfold matchTail; rw [h]

lemma matchTail_eq_nil {r0 : List Char} (h : afterParen (afterDash r0) = []) :
    matchTail r0 = none := by
  unfold matchTail; rw [h]

lemma matchCore_spec (t r : List Char) :
    matchCore t = some r ↔ ∃ p, IsCore p ∧ t = p ++ r := by
  constructor
  · intro h
    cases h0 : dropLit promptBase t with
    | none => rw [matchCore_eq_none h0] at h; cases h
    | some r0 =>
        rw [matchCore_eq_tail h0] at h
        have ht : t = promptBase ++ r0 := (dropLit_iff promptBase t r0).mp h0
        obtain ⟨n, hn, hr0⟩ := afterDash_split r0
        obtain ⟨q, hq, hr1⟩ := afterParen_split (afterDash r0)
        cases h1 : afterParen (afterDash r0) with
        | nil => rw [matchTail_eq_nil h1] at h; cases h
        | cons c rest =>
            rw [matchTail_eq_cons h1] at h
            rw [h1] at hr1
            by_cases hc : (c = '>' || c = '#') = true
            · rw [if_pos hc] at h
              have hrr : rest = r := by injection h
              refine ⟨promptBase ++ n ++ q ++ [c], ⟨n, q, c, hn, hq, ?_, rfl⟩, ?_⟩
              · rcases Bool.or_eq_true_iff.mp hc with h' | h'
                · exact Or.inl (by simpa using h')
                · exact Or.inr (by simpa using h')
              · rw [ht, hr0, hr1, hrr]
                simp
            · rw [if_neg hc] at h; cases h
  · rintro ⟨p, ⟨n, q, c, hn, hq, hc, rfl⟩, rfl⟩
    have hc' : c ≠ '-' ∧ c.isDigit = false ∧ c ≠ '(' := by
      rcases hc with rfl | rfl <;> exact ⟨by decide, by decide, by decide⟩
    have hassoc : (promptBase ++ n ++ q ++ [c]) ++ r =
        promptBase ++ (n ++ (q ++ (c :: r))) := by simp
    rw [hassoc]
    have hlit : dropLit promptBase (promptBase ++ (n ++ (q ++ (c :: r)))) =
        some (n ++ (q ++ (c :: r))) := by
      rw [dropLit_iff]
    rw [matchCore_eq_tail hlit]
    have hd : afterDash (n ++ (q ++ (c :: r))) = q ++ (c :: r) := by
      refine afterDash_of _ hn ?_
      rcases hq with rfl | ⟨inner, hin, rfl⟩
      · exact ⟨c, r, by simp, hc'.1, hc'.2.1⟩
      · exact ⟨'(', inner ++ [')'] ++ (c :: r), by simp, by decide, by decide⟩
    have hp : afterParen (q ++ (c :: r)) = c :: r := by
      refine afterParen_of _ hq ⟨c, r, rfl, hc'.2.2⟩
    have hcT : (c = '>' || c = '#') = true := by
      rcases hc with rfl | rfl <;> decide
    rw [matchTail_eq_cons (by rw [hd, hp]), if_pos hcT]

lemma endOK_iff (r : List Char) :
    endOK r = true ↔
      ∃ w v, r = w ++ v ∧ (∀ c ∈ w, reWs c = true) ∧
        (v = [] ∨ ∃ v2, v = '\n' :: v2) := by
  induction r with
  | nil =>
      constructor
      · intro _
        refine ⟨[], [], rfl, ?_, Or.inl rfl⟩
        intro c hc; cases hc
      · intro _; rfl
  | cons c cs ih =>
      constructor
      · intro h
        by_cases hn : c = '\n'
        · refine ⟨[], c :: cs, rfl, ?_, Or.inr ⟨cs, by rw [hn]⟩⟩
          intro x hx; cases hx
        · have hw : reWs c = true := by
            by_contra hw
            simp [endOK, hn, Bool.eq_false_iff.mpr hw] at h
          have h' : endOK cs = true := by
            simpa [endOK, hn, hw] using h
          obtain ⟨w, v, rfl, hws, hv⟩ := ih.mp h'
          refine ⟨c :: w, v, rfl, ?_, hv⟩
          intro x hx
          rcases List.mem_cons.mp hx with rfl | hx
          · exact hw
          · exact hws x hx
      · rintro ⟨w, v, hsplit, hws, hv⟩
        cases w with
        | nil =>
            simp only [List.nil_append] at hsplit
            rcases hv with rfl | ⟨v2, rfl⟩
            · cases hsplit
            · obtain ⟨h1, h2⟩ := List.cons.inj hsplit
              simp [endOK, h1]
        | cons x w' =>
            have hx : x = c := by injection hsplit with h1 _; exact h1.symm
            have hcs : cs = w' ++ v := by injection hsplit with _ h2
            have hcw : reWs c = true := hx ▸ hws x (List.mem_cons_self x w')
            by_cases hn : c = '\n'
            · simp [endOK, hn]
            · have : endOK cs = true :=
                ih.mpr ⟨w', v, hcs, fun y hy => hws y (List.mem_cons_of_mem x hy), hv⟩
              simp [endOK, hn, hcw, this]

lemma promptHit_iff (t : List Char) :
    promptHit t = true ↔
      ∃ p w v, IsCore p ∧ (∀ c ∈ w, reWs c = true) ∧
        (v = [] ∨ ∃ v2, v = '\n' :: v2) ∧ t = p ++ w ++ v := by
  constructor
  · intro h
    cases hm : matchCore t with
    | none => simp [promptHit, hm] at h
    | some r =>
        have he : endOK r = true := by simpa [promptHit, hm] using h
        obtain ⟨p, hp, rfl⟩ := (matchCore_spec t r).mp hm
        obtain ⟨w, v, rfl, hws, hv⟩ := (endOK_iff r).mp he
        exact ⟨p, w, v, hp, hws, hv, by simp⟩
  · rintro ⟨p, w, v, hp, hws, hv, rfl⟩
    have hm : matchCore (p ++ (w ++ v)) = some (w ++ v) :=
      (matchCore_spec _ _).mpr ⟨p, hp, rfl⟩
    have he : endOK (w ++ v) = true := (endOK_iff _).mpr ⟨w, v, rfl, hws, hv⟩
    simp [promptHit, hm, he]

lemma endAnchoredHit_iff (t : List Char) :
    endAnchoredHit t = true ↔
      ∃ p w, IsCore p ∧ (∀ c ∈ w, reWs c = true) ∧ t = p ++ w := by
  constructor
  · intro h
    cases hm : matchCore t with
    | none => simp [endAnchoredHit, hm] at h
    | some r =>
        have he : r.all reWs = true := by simpa [endAnchoredHit, hm] using h
        obtain ⟨p, hp, rfl⟩ := (matchCore_spec t r).mp hm
        exact ⟨p, r, hp, fun c hc => List.all_eq_true.mp he c hc, rfl⟩
  · rintro ⟨p, w, hp, hws, rfl⟩
    have hm : matchCore (p ++ w) = some w := (matchCore_spec _ _).mpr ⟨p, hp, rfl⟩
    have hall : w.all reWs = true := List.all_eq_true.mpr hws
    simp [endAnchoredHit, hm, hall]

lemma suffix_decomp {s t : List Char} (h : t <:+ s) : ∃ u, s = u ++ t := by
  obtain ⟨u, hu⟩ := h
  exact ⟨u, hu.symm⟩

lemma promptMatch_iff (s : List Char) :
    promptMatch s = true ↔
      ∃ u p w v, IsCore p ∧ (∀ c ∈ w, reWs c = true) ∧
        (v = [] ∨ ∃ v2, v = '\n' :: v2) ∧ s = u ++ p ++ w ++ v := by
  constructor
  · intro h
    obtain ⟨t, ht, hhit⟩ := List.any_eq_true.mp h
    obtain ⟨u, rfl⟩ := suffix_decomp ((List.mem_tails _ _).mp ht)
    obtain ⟨p, w, v, hp, hws, hv, rfl⟩ := (promptHit_iff t).mp hhit
    exact ⟨u, p, w, v, hp, hws, hv, by simp⟩
  · rintro ⟨u, p, w, v, hp, hws, hv, rfl⟩
    refine List.any_eq_true.mpr ⟨p ++ w ++ v, ?_, ?_⟩
    · exact (List.mem_tails _ _).mpr ⟨u, by simp⟩
    · exact (promptHit_iff _).mpr ⟨p, w, v, hp, hws, hv, rfl⟩

lemma endAnchored_iff (s : List Char) :
    endAnchored s = true ↔
      ∃ u p w, IsCore p ∧ (∀ c ∈ w, reWs c = true) ∧ s = u ++ p ++ w := by
  constructor
  · intro h
    obtain ⟨t, ht, hhit⟩ := List.any_eq_true.mp h
    obtain ⟨u, rfl⟩ := suffix_decomp ((List.mem_tails _ _).mp ht)
    obtain ⟨p, w, hp, hws, rfl⟩ := (endAnchoredHit_iff t).mp hhit
    exact ⟨u, p, w, hp, hws, by simp⟩
  · rintro ⟨u, p, w, hp, hws, rfl⟩
    refine List.any_eq_true.mpr ⟨p ++ w, ?_, ?_⟩
    · exact (List.mem_tails _ _).mpr ⟨u, by simp⟩
    · exact (endAnchoredHit_iff _).mpr ⟨p, w, hp, hws, rfl⟩

lemma stripGo_plain_of_not_mem {l : List Char} (h : esc ∉ l) :
    stripGo .plain l = l := by
  induction l with
  | nil => rfl
  | cons c cs ih =>
      have hc : ¬ c = esc := fun hc => h (hc ▸ List.mem_cons_self c cs)
      have hcs : esc ∉ cs := fun hm => h (List.mem_cons_of_mem c hm)
      simp [stripGo, hc, ih hcs]

lemma escSeqAt_head {t : List Char} (h : escSeqAt t = true) :
    ∃ rest, t = esc :: rest := by
  match t with
  | [] => simp [escSeqAt] at h
  | [c] => simp [escSeqAt] at h
  | c :: d :: rest =>
      by_cases hc : c = esc ∧ d = '['
      · exact ⟨d :: rest, by rw [hc.1]⟩
      · simp [escSeqAt, hc] at h

lemma hasEscSeq_mem {l : List Char} (h : hasEscSeq l = true) : esc ∈ l := by
  rcases List.any_eq_true.mp h with ⟨t, ht, hAt⟩
  rcases escSeqAt_head hAt with ⟨rest, rfl⟩
  have hsuf : (esc :: rest) <:+ l := (List.mem_tails _ _).mp ht
  exact hsuf.subset (List.mem_cons_self _ _)

lemma hasEscSeq_eq_false_of_not_mem {l : List Char} (h : esc ∉ l) :
    hasEscSeq l = false := by
  cases hE : hasEscSeq l with
  | false => rfl
  | true => exact absurd (hasEscSeq_mem hE) h

lemma wf_outBuf (evs : List Ev) : ∀ buf tmp,
    (waitForPromptC buf tmp evs).2 = buf ++ consumed tmp evs := by
  induction evs with
  | nil => intro buf tmp; simp [waitForPromptC, consumed]
  | cons ev evs ih =>
      intro buf tmp
      cases ev with
      | ctxDone => simp [waitForPromptC, consumed]
      | timeoutFire => simp [waitForPromptC, consumed]
      | read chunk fatal =>
          cases fatal with
          | true => simp [waitForPromptC, consumed]
          | false =>
              by_cases hc : chunk = []
              · subst hc
                simpa [waitForPromptC, consumed] using ih buf tmp
              · by_cases hm : promptMatch (stripAnsi (tmp ++ chunk)) = true
                · simp [waitForPromptC, consumed, hc, hm]
                · simp [waitForPromptC, consumed, hc, hm,
                    ih (buf ++ chunk) (tmp ++ chunk), List.append_assoc]

lemma runCommand_ok_out {st : ClientSt} {cmd : List Char} {w : Bool} {evs : List Ev}
    {out : List Char} (h : (runCommand st cmd w evs).1 = .ok out) :
    out = normalize (st.outBuf ++ consumed [] evs) ∧
    (runCommand st cmd w evs).2.outBuf = [] := by
  rcases hw : waitForPromptC st.outBuf [] evs with ⟨res, buf⟩
  have hbuf : buf = st.outBuf ++ consumed [] evs := by
    have := wf_outBuf evs st.outBuf []
    rw [hw] at this
    exact this
  cases res with
  | ok =>
      have hrc : runCommand st cmd w evs = (.ok (normalize buf), ⟨[]⟩) := by
        unfold runCommand; rw [hw]
      rw [hrc] at h
      have hout : normalize buf = out := by simpa using h
      refine ⟨?_, by rw [hrc]⟩
      rw [← hout, hbuf]
  | ctxErr =>
      have hrc : runCommand st cmd w evs = (.error .ctxCanceled, ⟨buf⟩) := by
        unfold runCommand; rw [hw]
      rw [hrc] at h; cases h
  | timeoutErr =>
      have hrc : runCommand st cmd w evs = (.error .timeout, ⟨buf⟩) := by
        unfold runCommand; rw [hw]
      rw [hrc] at h; cases h
  | readErr =>
      have hrc : runCommand st cmd w evs = (.error .readFailed, ⟨buf⟩) := by
        unfold runCommand; rw [hw]
      rw [hrc] at h; cases h
  | pending =>
      have hrc : runCommand st cmd w evs = (.error .stillPending, ⟨buf⟩) := by
        unfold runCommand; rw [hw]
      rw [hrc] at h; cases h

lemma runCommand_error_buf {st : ClientSt} {cmd : List Char} {w : Bool} {evs : List Ev}
    {e : RunErr} (h : (runCommand st cmd w evs).1 = .error e) :
    (runCommand st cmd w evs).2.outBuf = st.outBuf ++ consumed [] evs := by
  rcases hw : waitForPromptC st.outBuf [] evs with ⟨res, buf⟩
  have hbuf : buf = st.outBuf ++ consumed [] evs := by
    have := wf_outBuf evs st.outBuf []
    rw [hw] at this
    exact this
  cases res with
  | ok =>
      have hrc : runCommand st cmd w evs = (.ok (normalize buf), ⟨[]⟩) := by
        unfold runCommand; rw [hw]
      rw [hrc] at h; cases h
  | ctxErr =>
      have hrc : runCommand st cmd w evs = (.error .ctxCanceled, ⟨buf⟩) := by
        unfold runCommand; rw [hw]
      rw [hrc]; exact hbuf
  | timeoutErr =>
      have hrc : runCommand st cmd w evs = (.error .timeout, ⟨buf⟩) := by
        unfold runCommand; rw [hw]
      rw [hrc]; exact hbuf
  | readErr =>
      have hrc : runCommand st cmd w evs = (.error .readFailed, ⟨buf⟩) := by
        unfold runCommand; rw [hw]
      rw [hrc]; exact hbuf
  | pending =>
      have hrc : runCommand st cmd w evs = (.error .stillPending, ⟨buf⟩) := by
        unfold runCommand; rw [hw]
      rw [hrc]; exact hbuf

lemma removeCR_no_cr (l : List Char) :
    (removeCR l).all (fun c => c != '\r') = true := by
  rw [List.all_eq_true]
  intro c hc
  exact (List.mem_filter.mp hc).2

lemma removeCR_subset {c : Char} {l : List Char} (h : c ∈ removeCR l) : c ∈ l :=
  (List.mem_filter.mp h).1

lemma pwSends_le (evs : List Ev2) : ∀ tmp fo,
    (waitForPrompt2 tmp fo evs).2.2 ≤ readCount evs := by
  induction evs with
  | nil => intro tmp fo; simp [waitForPrompt2, readCount]
  | cons ev evs ih =>
      intro tmp fo
      cases ev with
      | timeoutFire =>
          simpa [waitForPrompt2, readCount] using Nat.zero_le (readCount evs)
      | read chunk fatal =>
          cases fatal with
          | true => simp [waitForPrompt2, readCount]
          | false =>
              by_cases hc : chunk = []
              · subst hc
                simpa [waitForPrompt2, readCount] using ih tmp fo
              · have hcount : readCount (Ev2.read chunk false :: evs) =
                    1 + readCount evs := by
                  simp [readCount, hc]
                by_cases hpw : containsSub (stripAnsi (tmp ++ chunk)) pwPrompt = true
                · have : (waitForPrompt2 tmp fo (Ev2.read chunk false :: evs)).2.2 =
                      (waitForPrompt2 [] (fo ++ chunk) evs).2.2 + 1 := by
                    simp [waitForPrompt2, hc, hpw]
                  rw [this, hcount]
                  have := ih [] (fo ++ chunk)
                  omega
                · by_cases hm : promptMatch (stripAnsi (tmp ++ chunk)) = true
                  · have : (waitForPrompt2 tmp fo (Ev2.read chunk false :: evs)).2.2 = 0 := by
                      simp [waitForPrompt2, hc, hpw, hm]
                    rw [this]
                    exact Nat.zero_le _
                  · have : (waitForPrompt2 tmp fo (Ev2.read chunk false :: evs)).2.2 =
                        (waitForPrompt2 (tmp ++ chunk) (fo ++ chunk) evs).2.2 := by
                      simp [waitForPrompt2, hc, hpw, hm]
                    rw [this, hcount]
                    have := ih (tmp ++ chunk) (fo ++ chunk)
                    omega

lemma poeStep_skip {l : List Char} (h : poeShortLine l = true)
    (m : List (List Char × PoEPort)) : poeStep m l = .ok m := by
  simp only [poeShortLine, Bool.and_eq_true, decide_eq_true_eq] at h
  unfold poeStep
  rw [h.1, if_pos rfl, if_pos h.2]

lemma poeNum_bad1 {fs : List (List Char)} (m : List (List Char × PoEPort))
    (line : List Char) (h : parseFloat? (fs.getD 1 []) = none) :
    poeNum m line fs = .error line := by
  unfold poeNum; rw [h]

lemma poeNum_bad2 {fs : List (List Char)} (m : List (List Char × PoEPort))
    (line : List Char) {pw : ℚ} (h1 : parseFloat? (fs.getD 1 []) = some pw)
    (h2 : atoi? (fs.getD 2 []) = none) :
    poeNum m line fs = .error line := by
  unfold poeNum; rw [h1, h2]

lemma poeNum_bad3 {fs : List (List Char)} (m : List (List Char × PoEPort))
    (line : List Char) {pw : ℚ} {cur : ℤ} (h1 : parseFloat? (fs.getD 1 []) = some pw)
    (h2 : atoi? (fs.getD 2 []) = some cur) (h3 : parseFloat? (fs.getD 3 []) = none) :
    poeNum m line fs = .error line := by
  unfold poeNum; rw [h1, h2, h3]

lemma poeStep_eq_num {l : List Char} (m : List (List Char × PoEPort))
    (h1 : ("Tw".toList).isPrefixOf (trimSpace l) = true)
    (h2 : 6 ≤ (fields (trimSpace l)).length) :
    poeStep m l = poeNum m (trimSpace l) (fields (trimSpace l)) := by
  unfold poeStep
  rw [h1, if_pos rfl, if_neg (by omega)]

lemma poeStep_bad {l : List Char} (h : poeBadLine l = true)
    (m : List (List Char × PoEPort)) : poeStep m l = .error (trimSpace l) := by
  simp only [poeBadLine, Bool.and_eq_true, Bool.or_eq_true, decide_eq_true_eq,
    Option.isNone_iff_eq_none] at h
  obtain ⟨⟨h1, h2⟩, h3⟩ := h
  rw [poeStep_eq_num m h1 h2]
  rcases h3 with (h3 | h3) | h3
  · exact poeNum_bad1 m _ h3
  · cases hP : parseFloat? ((fields (trimSpace l)).getD 1 []) with
    | none => exact poeNum_bad1 m _ hP
    | some pv => exact poeNum_bad2 m _ hP h3
  · cases hP : parseFloat? ((fields (trimSpace l)).getD 1 []) with
    | none => exact poeNum_bad1 m _ hP
    | some pv =>
        cases hA : atoi? ((fields (trimSpace l)).getD 2 []) with
        | none => exact poeNum_bad2 m _ hP hA
        | some av => exact poeNum_bad3 m _ hP hA h3

lemma parsePoELines_insert {l : List Char} (h : poeShortLine l = true) :
    ∀ ls1 ls2 m, parsePoELines (ls1 ++ l :: ls2) m = parsePoELines (ls1 ++ ls2) m := by
  intro ls1
  induction ls1 with
  | nil =>
      intro ls2 m
      simp only [List.nil_append, parsePoELines, poeStep_skip h m]
  | cons a ls1 ih =>
      intro ls2 m
      simp only [List.cons_append, parsePoELines]
      cases poeStep m a with
      | ok m' => exact ih ls2 m'
      | error e => rfl

lemma parsePoELines_bad : ∀ (ls : List (List Char)) (m : List (List Char × PoEPort)),
    (∃ l ∈ ls, poeBadLine l = true) → (parsePoELines ls m).isOk = false := by
  intro ls
  induction ls with
  | nil => intro m h; rcases h with ⟨l, hl, _⟩; cases hl
  | cons a ls ih =>
      intro m h
      rcases h with ⟨l, hl, hbad⟩
      rcases List.mem_cons.mp hl with rfl | hl'
      · simp only [parsePoELines, poeStep_bad hbad m]
        rfl
      · simp only [parsePoELines]
        cases poeStep m a with
        | ok m' => exact ih m' ⟨l, hl', hbad⟩
        | error e => rfl

lemma macLine?_none_of_badVlan {raw : List Char}
    (h5 : (fields (trimSpace raw)).length = 5)
    (hv : atoi? ((fields (trimSpace raw)).getD 1 []) = none) :
    macLine? raw = none := by
  unfold macLine?
  by_cases hh : macHeaderSkip (trimSpace raw) = true
  · rw [hh, if_pos rfl]
  · have hh' : macHeaderSkip (trimSpace raw) = false := by
      revert hh; cases macHeaderSkip (trimSpace raw) <;> simp
    rw [hh', if_neg Bool.false_ne_true, if_pos h5]
    unfold macNum
    rw [hv]

lemma filterMap_insert_none {α β : Type} {f : α → Option β} {l : α}
    (h : f l = none) (ls1 ls2 : List α) :
    (ls1 ++ l :: ls2).filterMap f = (ls1 ++ ls2).filterMap f := by
  simp [List.filterMap_append, List.filterMap_cons, h]

/-! ## Claim theorems -/

/-- **C1** (counterexample).  The claim: during a single read cycle the
secondary credential is written to the transport at most once, even if
`Password:` appears in several chunks.  False: on a trace delivering the
text `Password:` in two successive chunks, the CLI `waitForPrompt` writes
the password twice within one invocation — the code clears the accumulation
buffer after answering but keeps no sent-already flag, so a later chunk
containing the pattern triggers another write. -/
theorem c1_counterexample :
    (waitForPrompt2 [] []
        [Ev2.read ("Password:".toList) false,
         Ev2.read ("Password:".toList) false]).2.2 = 2 ∧
    ¬ ((waitForPrompt2 [] []
        [Ev2.read ("Password:".toList) false,
         Ev2.read ("Password:".toList) false]).2.2 ≤ 1) := by decide

/-- **C1** (amended).  The credential is written at most once per processed
chunk: clearing the buffer after an interjection prevents one occurrence of
the pattern from triggering twice, so the number of writes in a cycle is
bounded by the number of nonempty non-fatal chunks received — but not by
one. -/
theorem c1_amended (tmp fo : List Char) (evs : List Ev2) :
    (waitForPrompt2 tmp fo evs).2.2 ≤ readCount evs :=
  pwSends_le evs tmp fo

/-- **C2** (counterexample).  The claim: `strip (strip b) = strip b` for
every buffer.  False: removing the inner escape sequence from
`ESC [ ESC [ 0 m 0 m` glues a new `ESC [ 0 m` together, so one pass leaves
`ESC [ 0 m` and a second pass removes it. -/
theorem c2_counterexample :
    stripAnsi (stripAnsi ("\x1b[\x1b[0m0m".toList)) ≠
      stripAnsi ("\x1b[\x1b[0m0m".toList) ∧
    stripAnsi ("\x1b[\x1b[0m0m".toList) = "\x1b[0m".toList ∧
    stripAnsi ("\x1b[0m".toList) = [] := by decide

/-- **C2** (amended).  Stripping is a no-op on already-stripped buffers that
contain no ESC byte; in particular `strip (strip b) = strip b` whenever one
pass removes every ESC (true of all non-overlapping escape sequences). -/
theorem c2_amended (b : List Char) (h : esc ∉ stripAnsi b) :
    stripAnsi (stripAnsi b) = stripAnsi b :=
  stripGo_plain_of_not_mem h

/-- **C2** (witness for the amended theorem at a concrete buffer). -/
theorem c2_witness :
    esc ∉ stripAnsi ("ab\x1b[32mcd".toList) ∧
    stripAnsi (stripAnsi ("ab\x1b[32mcd".toList)) = stripAnsi ("ab\x1b[32mcd".toList) :=
  ⟨by decide, c2_amended _ (by decide)⟩

/-- **C3** (counterexample).  The claim: the prompt matcher matches only
when the prompt pattern sits at the very end of the normalized buffer (with
at most trailing whitespace), and never matches a proper prefix of a
still-arriving prompt.  Both parts fail.  `promptRegex` carries the `(?m)`
flag, so `\s*$` anchors to line ends: the buffer `SG2210XMP-M2#` + newline +
`hello` matches although non-whitespace output follows the prompt, and no
decomposition places the core pattern at the very end.  And the buffer
`SG2210XMP-M2(SG2210XMP-M2#` — a proper prefix of the valid prompt
`SG2210XMP-M2(SG2210XMP-M2#)#` still in transmission — matches, because the
parenthesized mode text contains a complete prompt shape. -/
theorem c3_counterexample :
    promptMatch ("SG2210XMP-M2#\nhello".toList) = true ∧
    (¬ ∃ u p w, IsCore p ∧ (∀ c ∈ w, reWs c = true) ∧
      "SG2210XMP-M2#\nhello".toList = u ++ p ++ w) ∧
    promptMatch ("SG2210XMP-M2(SG2210XMP-M2#".toList) = true ∧
    (∃ t, t ≠ [] ∧
      "SG2210XMP-M2(SG2210XMP-M2#)#".toList =
        "SG2210XMP-M2(SG2210XMP-M2#".toList ++ t) ∧
    IsCore ("SG2210XMP-M2(SG2210XMP-M2#)#".toList) := by
  refine ⟨by decide, ?_, by decide, ⟨")#".toList, by decide, by decide⟩, ?_⟩
  · intro h
    exact absurd ((endAnchored_iff _).mpr h) (by decide)
  · exact ⟨[], '(' :: ("SG2210XMP-M2#".toList ++ [')']), '#', Or.inl rfl,
      Or.inr ⟨"SG2210XMP-M2#".toList, by decide, rfl⟩, Or.inr rfl, by decide⟩

/-- **C3** (amended).  The matcher reports a match exactly when the core
prompt pattern occurs somewhere in the normalized buffer followed by
whitespace up to a line boundary — the end of the buffer or a position just
before a newline — rather than the end of the whole buffer. -/
theorem c3_amended (s : List Char) :
    promptMatch s = true ↔
      ∃ u p w v, IsCore p ∧ (∀ c ∈ w, reWs c = true) ∧
        (v = [] ∨ ∃ v2, v = '\n' :: v2) ∧ s = u ++ p ++ w ++ v :=
  promptMatch_iff s

/-- **C4** (code bug).  The claim: if the write of the command to stdin
fails, `RunCommand` returns a non-nil error.  The source discards the
result of `fmt.Fprint(c.stdin, cmd+"\r\n")`, so a failed write is invisible:
with a failed write (`wfail = true`) and a prompt already arriving on
stdout, `RunCommand` returns success. -/
theorem c4_code_bug :
    (runCommand ⟨[]⟩ ("show power inline information interface".toList) true
        [Ev.read ("SG2210XMP-M2#".toList) false]).1 =
      Except.ok ("SG2210XMP-M2#".toList) := by decide

/-- **C5** (counterexample).  The claim: a successful `RunCommand` output
contains no carriage returns and no raw ANSI escape sequences.  The CR half
holds, but escape-freedom fails: stripping is a single pass, so the
pathological chunk `ESC [ ESC [ 0 m 0 m` followed by the prompt yields a
successful call whose output still contains the escape sequence
`ESC [ 0 m`. -/
theorem c5_counterexample :
    (runCommand ⟨[]⟩ ("show".toList) false
        [Ev.read ("\x1b[\x1b[0m0mSG2210XMP-M2#".toList) false]).1 =
      Except.ok ("\x1b[0mSG2210XMP-M2#".toList) ∧
    hasEscSeq ("\x1b[0mSG2210XMP-M2#".toList) = true := by decide

/-- **C5** (amended).  A successful `RunCommand` output never contains a
carriage return; and it contains no ANSI escape sequence provided a single
stripping pass leaves no ESC byte in the accumulated bytes (true whenever
the received escape sequences do not overlap). -/
theorem c5_amended (st : ClientSt) (cmd : List Char) (w : Bool) (evs : List Ev)
    (out : List Char) (h : (runCommand st cmd w evs).1 = .ok out) :
    '\r' ∉ out ∧
    (esc ∉ stripAnsi (st.outBuf ++ consumed [] evs) → hasEscSeq out = false) := by
  obtain ⟨hout, _⟩ := runCommand_ok_out h
  subst hout
  constructor
  · intro hcr
    have h2 : (('\r' : Char) != '\r') = true := (List.mem_filter.mp hcr).2
    simp at h2
  · intro hesc
    apply hasEscSeq_eq_false_of_not_mem
    intro hmem
    exact hesc (removeCR_subset hmem)

/-- **C5** (witness for the amended theorem at a concrete trace). -/
theorem c5_witness :
    '\r' ∉ ("abcSG2210XMP-M2#".toList) ∧
    hasEscSeq ("abcSG2210XMP-M2#".toList) = false := by
  have h := c5_amended ⟨[]⟩ ("show".toList) false
    [Ev.read ("abc\x1b[0mSG2210XMP-M2#".toList) false]
    ("abcSG2210XMP-M2#".toList) (by decide)
  exact ⟨h.1, h.2 (by decide)⟩

/-- **C6** (counterexample).  The claim: the power/PoE parser *alone* fails
the whole call on an unparsable numeric field in a structurally eligible
row.  False: `ParseInterfaceCounters` also fails the whole call — the line
`A: ,` matches `keyValRegex` (structurally eligible), its value with commas
removed is the empty string, and `strconv.ParseUint("")` errors, aborting
the call. -/
theorem c6_counterexample :
    (keyValMatch ("A: ,".toList)).isSome = true ∧
    parseUint64? ((",".toList).filter (fun c => c != ',')) = none ∧
    (parseInterfaceCounters ("Port: X\nA: ,".toList)).isOk = false := by decide

/-- **C6** (amended).  The PoE parser fails the whole call on every
structurally eligible row with an unparsable numeric field; the counters
parser can also fail the whole call, but only in the degenerate cases its
digits-and-commas regex admits (empty digit strings or out-of-range
values); the MAC-table, status and configuration parsers never fail. -/
theorem c6_amended :
    (∀ ls m, (∃ l ∈ ls, poeBadLine l = true) → (parsePoELines ls m).isOk = false) ∧
    (∀ s, (parseMACTable s).isOk = true) ∧
    (∀ s, (parseInterfaceStatus s).isOk = true) ∧
    (∀ s, (parseInterfaceConfig s).isOk = true) ∧
    (parseInterfaceCounters ("Port: X\nA: ,".toList)).isOk = false := by
  refine ⟨?_, fun s => rfl, fun s => rfl, fun s => rfl, by decide⟩
  intro ls m h
  exact parsePoELines_bad ls m h

/-- **C6** (witness for the amended theorem at a concrete table). -/
theorem c6_witness :
    (parsePoELines ["Tw1/0/1 N/A 0 0.0 N/A OFF".toList] []).isOk = false :=
  c6_amended.1 ["Tw1/0/1 N/A 0 0.0 N/A OFF".toList] []
    ⟨"Tw1/0/1 N/A 0 0.0 N/A OFF".toList, List.mem_cons_self _ _, by decide⟩

/-- **C7**.  `ParsePoETable` on the line `Tw1/0/1 4.2 84 52.0 Class1 ON`
yields the record (power 4.2 W, current 84 mA, voltage 52.0 V, class
`Class1`, status `ON`) under key `Tw1/0/1`; inserting any `Tw`-prefixed
line with fewer than six fields anywhere leaves the result unchanged (a
silent skip); and any input containing a `Tw`-prefixed line with at least
six fields whose power field does not parse makes the whole call fail. -/
theorem c7_thm :
    parsePoETable ("Tw1/0/1 4.2 84 52.0 Class1 ON".toList) =
      .ok [("Tw1/0/1".toList,
        ⟨mkRat 21 5, 84, mkRat 52 1, "Class1".toList, "ON".toList⟩)] ∧
    (∀ l ls1 ls2 m, poeShortLine l = true →
      parsePoELines (ls1 ++ l :: ls2) m = parsePoELines (ls1 ++ ls2) m) ∧
    (∀ ls m l, l ∈ ls → ("Tw".toList).isPrefixOf (trimSpace l) = true →
      6 ≤ (fields (trimSpace l)).length →
      parseFloat? ((fields (trimSpace l)).getD 1 []) = none →
      (parsePoELines ls m).isOk = false) := by
  refine ⟨by decide, ?_, ?_⟩
  · intro l ls1 ls2 m h
    exact parsePoELines_insert h ls1 ls2 m
  · intro ls m l hmem hpre hlen hnum
    apply parsePoELines_bad ls m
    refine ⟨l, hmem, ?_⟩
    simp only [poeBadLine, Bool.and_eq_true, Bool.or_eq_true, decide_eq_true_eq,
      Option.isNone_iff_eq_none]
    exact ⟨⟨hpre, hlen⟩, Or.inl (Or.inl hnum)⟩

/-- **C7** (witness: the skip and hard-error parts at concrete tables). -/
theorem c7_witness :
    parsePoELines ([] ++ "Tw1 2".toList :: ["Tw1/0/9 1.0 1 50.0 Class0 OFF".toList]) [] =
      parsePoELines ([] ++ ["Tw1/0/9 1.0 1 50.0 Class0 OFF".toList]) [] ∧
    (parsePoELines ["Tw1/0/1 N/A 0 0.0 N/A OFF".toList] []).isOk = false := by
  constructor
  · exact c7_thm.2.1 ("Tw1 2".toList) [] ["Tw1/0/9 1.0 1 50.0 Class0 OFF".toList] []
      (by decide)
  · exact c7_thm.2.2 ["Tw1/0/1 N/A 0 0.0 N/A OFF".toList] []
      ("Tw1/0/1 N/A 0 0.0 N/A OFF".toList) (List.mem_cons_self _ _)
      (by decide) (by decide) (by decide)

/-- **C8**.  `ParseInterfaceCounters` on `Port: Gi1/0/1` followed by
`InOctets:       1,234,567` yields the map sending `Gi1/0/1` to
`{InOctets ↦ 1234567}`, the comma separators being removed before the
numeric conversion. -/
theorem c8_thm :
    parseInterfaceCounters ("Port: Gi1/0/1\nInOctets:       1,234,567".toList) =
      .ok [("Gi1/0/1".toList, [("InOctets".toList, 1234567)])] := by decide

/-- **C9**.  When `RunCommand` fails (context cancellation, timeout or read
error), `outBuf` is not reset: it keeps its previous contents plus whatever
the failed cycle received; a subsequent successful `RunCommand` then
returns the normalization of those stale bytes prepended to its own cycle's
bytes, and only then resets `outBuf`. -/
theorem c9_thm (st : ClientSt) (cmd1 cmd2 : List Char) (w1 w2 : Bool)
    (evs1 evs2 : List Ev) (e : RunErr) (out : List Char)
    (h1 : (runCommand st cmd1 w1 evs1).1 = .error e)
    (h2 : (runCommand (runCommand st cmd1 w1 evs1).2 cmd2 w2 evs2).1 = .ok out) :
    (runCommand st cmd1 w1 evs1).2.outBuf = st.outBuf ++ consumed [] evs1 ∧
    out = normalize (st.outBuf ++ consumed [] evs1 ++ consumed [] evs2) ∧
    (runCommand (runCommand st cmd1 w1 evs1).2 cmd2 w2 evs2).2.outBuf = [] := by
  have hb1 := runCommand_error_buf h1
  obtain ⟨hout, hreset⟩ := runCommand_ok_out h2
  refine ⟨hb1, ?_, hreset⟩
  rw [hout, hb1]

/-- **C9** (witness: a timed-out first call followed by a successful second
call returns the stale bytes prepended). -/
theorem c9_witness :
    (runCommand ⟨"old".toList⟩ ("show".toList) false
        [Ev.read ("partial".toList) false, Ev.timeoutFire]).2.outBuf =
      "old".toList ++ consumed [] [Ev.read ("partial".toList) false, Ev.timeoutFire] ∧
    ("oldpartialSG2210XMP-M2#".toList) =
      normalize ("old".toList ++
        consumed [] [Ev.read ("partial".toList) false, Ev.timeoutFire] ++
        consumed [] [Ev.read ("SG2210XMP-M2#".toList) false]) ∧
    (runCommand (runCommand ⟨"old".toList⟩ ("show".toList) false
        [Ev.read ("partial".toList) false, Ev.timeoutFire]).2 ("next".toList) false
        [Ev.read ("SG2210XMP-M2#".toList) false]).2.outBuf = [] :=
  c9_thm ⟨"old".toList⟩ ("show".toList) ("next".toList) false false
    [Ev.read ("partial".toList) false, Ev.timeoutFire]
    [Ev.read ("SG2210XMP-M2#".toList) false] RunErr.timeout
    ("oldpartialSG2210XMP-M2#".toList) (by decide) (by decide)

/-- **C10**.  `ParseInterfaceStatus`, `ParseInterfaceConfig` and
`ParseMACTable` return a nil error on every input; a five-field MAC row
whose VLAN field does not parse yields no entry, and inserting such a
skipped row anywhere leaves the MAC-table result unchanged. -/
theorem c10_thm :
    (∀ s, (parseInterfaceStatus s).isOk = true) ∧
    (∀ s, (parseInterfaceConfig s).isOk = true) ∧
    (∀ s, (parseMACTable s).isOk = true) ∧
    (∀ raw, (fields (trimSpace raw)).length = 5 →
      atoi? ((fields (trimSpace raw)).getD 1 []) = none → macLine? raw = none) ∧
    (∀ l ls1 ls2, macLine? l = none →
      (ls1 ++ l :: ls2).filterMap macLine? = (ls1 ++ ls2).filterMap macLine?) := by
  refine ⟨fun s => rfl, fun s => rfl, fun s => rfl, ?_, ?_⟩
  · intro raw h5 hv
    exact macLine?_none_of_badVlan h5 hv
  · intro l ls1 ls2 h
    exact filterMap_insert_none h ls1 ls2

/-- **C10** (witness: the skip parts at a concrete bad-VLAN row). -/
theorem c10_witness :
    macLine? ("aa-bb-cc-dd-ee-ff vlanX Gi1/0/1 dynamic 300".toList) = none ∧
    (["00-00-00-00-00-01 10 Gi1/0/2 dynamic 300".toList] ++
        "aa-bb-cc-dd-ee-ff vlanX Gi1/0/1 dynamic 300".toList :: []).filterMap macLine? =
      (["00-00-00-00-00-01 10 Gi1/0/2 dynamic 300".toList] ++ []).filterMap macLine? := by
  constructor
  · exact c10_thm.2.2.2.1 ("aa-bb-cc-dd-ee-ff vlanX Gi1/0/1 dynamic 300".toList)
      (by decide) (by decide)
  · exact c10_thm.2.2.2.2 ("aa-bb-cc-dd-ee-ff vlanX Gi1/0/1 dynamic 300".toList)
      ["00-00-00-00-00-01 10 Gi1/0/2 dynamic 300".toList] [] (by decide)

end TPLink
